import Mathlib

/-!
Verification of the deterministic Resume Intelligence Core of the
Skill-navigator backend against its specification.

The two components under study are shallowly embedded from the source:

* the Parsing Pipeline (`src/backend/agents/resume_analyzer.py`, class
  `ResumeAnalyzerAgent`: `_clean_text`, `_detect_sections`, `_extract_fields`,
  `_normalize`, `_validate`, `_extract_experience_years`, `analyze`), and
* the Matching Engine fallback scorer
  (`src/backend/core/resume_jd_matcher.py`,
  `ResumeJDMatcher._generate_fallback_match`).

Python strings are modelled by `String` (ASCII view: the source's data is
ASCII apart from decorative glyphs, which are carried through verbatim),
Python floats by `ℚ` (the arithmetic performed — small integer sums, a
division, one rounding — is exact at these magnitudes), Python dicts by
association lists looked up front-to-back (Python dict keys are unique, and
`.get` is modelled by `dictGet`).  The handful of `re` patterns the source
uses are embedded through a small backtracking matcher (`Re`/`reMatch`)
whose alternative order and greediness mirror CPython's `re`.
-/

namespace SkillNav

/-- The ASCII whitespace characters of Python's `str.strip()` / regex `\s`. -/
def pyWs (c : Char) : Bool :=
  c = ' ' ∨ c = '\t' ∨ c = '\n' ∨ c = '\r' ∨ c = '\x0b' ∨ c = '\x0c'

/-- Python's regex word character `\w` (ASCII view): `[A-Za-z0-9_]`. -/
def isWordChar (c : Char) : Bool :=
  c.isAlphanum ∨ c = '_'

/-- Python `str.strip()` on a character list. -/
def pyStripList (cs : List Char) : List Char :=
  ((cs.dropWhile pyWs).reverse.dropWhile pyWs).reverse

/-- Python `str.strip()`. -/
def pyStrip (s : String) : String :=
  ⟨pyStripList s.data⟩

/-- `a` occurs contiguously inside `b` (at any position, the end included). -/
def infixAt (a : List Char) : List Char → Bool
  | [] => a.isEmpty
  | c :: cs => a.isPrefixOf (c :: cs) || infixAt a cs

/-- Python `a in b` on strings: contiguous substring containment. -/
def pyIn (a b : String) : Bool :=
  infixAt a.data b.data

/-- Python `str.lower()` (ASCII view): each character lowered. -/
def pyLower (s : String) : String :=
  ⟨s.data.map Char.toLower⟩

/-- Python `str.startswith`. -/
def pyStartsWith (s pre : String) : Bool :=
  pre.data.isPrefixOf s.data

/-- Python `str.endswith`. -/
def pyEndsWith (s suf : String) : Bool :=
  suf.data.reverse.isPrefixOf s.data.reverse

/-!  ## A small backtracking regex matcher

Only the constructs the source's patterns use are represented: character
classes, concatenation, alternation (left alternative first, as in CPython),
greedy `?`, `{n}`, `*`, and the word boundary `\b`.  `reMatch` returns every
way the pattern can match a prefix of the input, as a list of
"(character just before the rest, rest of the input)" outcomes ordered the
way CPython's backtracking engine visits them, so that the head of the list
is the match CPython reports. -/

inductive Re where
  | eps : Re
  | cls (p : Char → Bool) : Re
  | seq (a b : Re) : Re
  | alt (a b : Re) : Re
  | opt (a : Re) : Re
  | rep (a : Re) (n : Nat) : Re
  | star (a : Re) : Re
  | wb : Re

/-- `\b`: exactly one side of the position is a word character. -/
def atWordBoundary (prev : Option Char) (next : Option Char) : Bool :=
  (prev.elim false isWordChar) ≠ (next.elim false isWordChar)

/-- All ways `re` matches a prefix of `cs`, in CPython backtracking order
(first element = the match Python reports).  `prev` is the character
immediately before `cs` in the full subject (for `\b`).  `fuel` decreases on
every recursive step, purely to make the recursion structural; the callers
hand in `reFuel`, ample for the fixed patterns of this file (with the fuel
exhausted the match would report no outcomes, never a wrong one). -/
def reMatch : Nat → Re → Option Char → List Char → List (Option Char × List Char)
  | 0, _, _, _ => []
  | _ + 1, .eps, prev, cs => [(prev, cs)]
  | _ + 1, .cls _, _, [] => []
  | _ + 1, .cls p, _, c :: cs => if p c then [(some c, cs)] else []
  | fuel + 1, .seq a b, prev, cs =>
      (reMatch fuel a prev cs).flatMap (fun pc => reMatch fuel b pc.1 pc.2)
  | fuel + 1, .alt a b, prev, cs => reMatch fuel a prev cs ++ reMatch fuel b prev cs
  | fuel + 1, .opt a, prev, cs => reMatch fuel a prev cs ++ [(prev, cs)]
  | _ + 1, .rep _ 0, prev, cs => [(prev, cs)]
  | fuel + 1, .rep a (n+1), prev, cs =>
      (reMatch fuel a prev cs).flatMap (fun pc => reMatch fuel (.rep a n) pc.1 pc.2)
  | _ + 1, .wb, prev, cs => if atWordBoundary prev cs.head? then [(prev, cs)] else []
  | fuel + 1, .star a, prev, cs =>
      ((reMatch fuel a prev cs).filter (fun pc => pc.2.length < cs.length)).flatMap
        (fun pc => reMatch fuel (.star a) pc.1 pc.2) ++ [(prev, cs)]

/-- A crude structural size for fuel computation. -/
def reSize : Re → Nat
  | .eps => 1
  | .cls _ => 1
  | .seq a b => reSize a + reSize b + 1
  | .alt a b => reSize a + reSize b + 1
  | .opt a => reSize a + 1
  | .rep a n => (reSize a + 1) * (n + 1) + 1
  | .star a => reSize a + 2
  | .wb => 1

/-- Ample fuel for matching `re` against `cs`: every `star` iteration
consumes a character, so the recursion depth is bounded by the pattern size
times the input length. -/
def reFuel (re : Re) (cs : List Char) : Nat :=
  (reSize re + 2) * (cs.length + 2)

/-- `{n,}`: `n` copies then a greedy star. -/
def reAtLeast (a : Re) (n : Nat) : Re :=
  .seq (.rep a n) (.star a)

/-- A literal string (each character matched exactly). -/
def reStr (s : String) : Re :=
  s.data.foldr (fun c r => .seq (.cls (fun d => d = c)) r) .eps

/-- A literal string, case-insensitively (for patterns under `re.IGNORECASE`). -/
def reStrCI (s : String) : Re :=
  s.data.foldr (fun c r => .seq (.cls (fun d => d.toLower = c.toLower)) r) .eps

/-- One character out of an explicit set. -/
def reOneOf (chars : String) : Re :=
  .cls (fun c => chars.data.contains c)

/-- `re.search`: leftmost match, reported as Python's `group(0)`.  Walks the
subject position by position, keeping the preceding character for `\b`. -/
def reSearchGo (re : Re) : Option Char → List Char → Option (List Char)
  | prev, cs =>
      match (reMatch (reFuel re cs) re prev cs).head? with
      | some pc => some (cs.take (cs.length - pc.2.length))
      | none =>
          match cs with
          | [] => none
          | c :: cs' => reSearchGo re (some c) cs'

def reSearch (re : Re) (s : String) : Option String :=
  (reSearchGo re none s.data).map (fun cs => ⟨cs⟩)

/-- `re.fullmatch(pattern, s) is not None`. -/
def reFullmatch (re : Re) (s : String) : Bool :=
  (reMatch (reFuel re s.data) re none s.data).any (fun pc => pc.2.isEmpty)

/-- `re.search(pattern, s) is not None`. -/
def reHasMatch (re : Re) (s : String) : Bool :=
  (reSearchGo re none s.data).isSome

/-- `re.findall` for a pattern without capture groups: non-overlapping
leftmost matches, the scan resuming right after each match. -/
def reFindAllGo (re : Re) : Nat → Option Char → List Char → List String
  | 0, _, _ => []
  | _+1, _, [] =>
      []
  | fuel+1, prev, cs =>
      match (reMatch (reFuel re cs) re prev cs).head? with
      | some pc =>
          let k := cs.length - pc.2.length
          if k = 0 then
            -- an empty match: advance one character (never hit by this file's patterns)
            match cs with
            | [] => []
            | c :: cs' => reFindAllGo re fuel (some c) cs'
          else
            (⟨cs.take k⟩ : String) :: reFindAllGo re fuel (cs.take k).getLast? pc.2
      | none =>
          match cs with
          | [] => []
          | c :: cs' => reFindAllGo re fuel (some c) cs'

def reFindAll (re : Re) (s : String) : List String :=
  reFindAllGo re (s.data.length + 1) none s.data

/-!  ## The Matching Engine
`ResumeJDMatcher._generate_fallback_match` of
`src/backend/core/resume_jd_matcher.py` (the deterministic scorer; the
LLM-backed `match` path is an external collaborator and out of scope).
The `scoring_explanation` string the source also assembles is presentation
only and is not modelled. -/

/-- The value found under the `skills` key of the candidate profile: the
source branches on `isinstance(..., dict)` / `isinstance(..., list)`. -/
inductive SkillsVal where
  | dict (entries : List (String × List String)) : SkillsVal
  | list (skills : List String) : SkillsVal
  deriving DecidableEq

/-- The candidate profile as `_generate_fallback_match` consumes it.  The
source only ever takes `len` of `projects` and substring-tests
`str(proj).lower()` / `str(exp).lower()`, so each `projects` / `experience`
entry is modelled by its `str()` rendering. -/
structure MatcherProfile where
  skills : SkillsVal
  experience_years : String
  projects : List String
  experience : List String
  deriving DecidableEq

structure JobRequirements where
  role : String
  required_skills : List String
  preferred_skills : List String
  soft_skills : List String
  experience_level : String
  deriving DecidableEq

structure MatchReport where
  match_percentage : ℤ
  match_level : String
  matched_skills : List String
  partial_matches : List String
  missing_skills : List String
  deriving DecidableEq

/-- Python `d.get(k, [])` for a dict modelled as an association list. -/
def dictGet (d : List (String × List String)) (k : String) : List String :=
  match d.find? (fun e => e.1 = k) with
  | some e => e.2
  | none => []

/-- `candidate_skills_list`: the four skill lists the source reads out of a
dict-shaped `skills` value, in source order; a list-shaped value is taken
whole. -/
def candidateSkillsList : SkillsVal → List String
  | .dict d =>
      dictGet d "technical_skills" ++ dictGet d "programming_languages" ++
        dictGet d "tools_frameworks" ++ dictGet d "soft_skills"
  | .list l => l

/-- `candidate_soft`: `skills.get('soft_skills', [])` for a dict, `[]` else. -/
def candidateSoft : SkillsVal → List String
  | .dict d => dictGet d "soft_skills"
  | .list _ => []

/-- `s.lower().strip()`, the normal form used for skill comparison. -/
def lowerStrip (s : String) : String :=
  pyStrip (pyLower s)

/-- The fixed `skill_categories` table, in source (dict insertion) order. -/
def skillCategories : List (String × List String) :=
  [("frontend", ["react", "vue", "angular", "javascript", "typescript", "html", "css"]),
   ("backend", ["node", "python", "java", "django", "flask", "express", "fastapi"]),
   ("database", ["sql", "mysql", "postgresql", "mongodb", "redis"]),
   ("cloud", ["aws", "azure", "gcp", "docker", "kubernetes", "cloud"]),
   ("devops", ["docker", "kubernetes", "ci/cd", "jenkins", "git"]),
   ("fullstack", ["mern", "mean", "react", "node", "full stack", "full-stack"])]

/-- The first category whose keyword list contains `skillLower` exactly and
has some keyword occurring inside the candidate skill `cand`. -/
def categoryFor (skillLower cand : String) : Option String :=
  (skillCategories.find?
      (fun ck => ck.2.contains skillLower ∧ ck.2.any (fun kw => pyIn kw cand))).map
    (fun ck => ck.1)

/-- The partial-match scan over the candidate skills: for each candidate in
order, first the two-way substring test, then the category table; the first
hit produces the annotation appended to `partial_matches`. -/
def findPartialNote (skill skillLower : String) : List String → Option String
  | [] => none
  | c :: cs =>
      if pyIn skillLower c ∨ pyIn c skillLower then
        some (skill ++ " (related: " ++ c ++ ")")
      else
        match categoryFor skillLower c with
        | some cat => some (skill ++ " (category match: " ++ cat ++ ")")
        | none => findPartialNote skill skillLower cs

/-- The per-required-skill classification loop: each required skill lands in
exactly one of (`matched_skills`, `partial_matches`, `missing_skills`), in
the order the requirements list them. -/
def classifySkills (candLower : List String) : List String → List String × List String × List String
  | [] => ([], [], [])
  | skill :: rest =>
      let skillLower := lowerStrip skill
      let prev := classifySkills candLower rest
      if candLower.contains skillLower then
        (skill :: prev.1, prev.2.1, prev.2.2)
      else
        match findPartialNote skill skillLower candLower with
        | some note => (prev.1, note :: prev.2.1, prev.2.2)
        | none => (prev.1, prev.2.1, skill :: prev.2.2)

/-- `re.sub(r'[^0-9.]', '', s)`: keep only digits and dots. -/
def keepDigitsDot (s : String) : String :=
  ⟨s.data.filter (fun c => c.isDigit ∨ c = '.')⟩

def digitsToNat (cs : List Char) : ℕ :=
  cs.foldl (fun n c => 10 * n + (c.toNat - '0'.toNat)) 0

/-- Python `float()` on a string of digits and at most one dot (what remains
after `keepDigitsDot`); `none` models the `ValueError` the source catches. -/
def parseFloatDigitsDot (s : String) : Option ℚ :=
  let cs := s.data
  let intPart := cs.takeWhile (fun c => c ≠ '.')
  let rest := cs.dropWhile (fun c => c ≠ '.')
  let fracPart := rest.drop 1
  if (cs.filter (fun c => c = '.')).length ≥ 2 then none
  else if intPart.isEmpty ∧ fracPart.isEmpty then none
  else some ((digitsToNat intPart : ℚ) + (digitsToNat fracPart : ℚ) / (10 : ℚ) ^ fracPart.length)

/-- `exp_years`: the numeric prefix distilled out of `experience_years`,
`0` when `float()` would raise. -/
def parseExpYears (s : String) : ℚ :=
  match parseFloatDigitsDot (keepDigitsDot s) with
  | some q => q
  | none => 0

/-- `total_equivalent_years = exp_years + project_count/2 + (0.5 if any
experience entry mentions an internship else 0)`. -/
def totalEquivYears (p : MatcherProfile) : ℚ :=
  let hasInternship :=
    p.experience.any (fun e => pyIn "intern" (pyLower e) ∨ pyIn "internship" (pyLower e))
  parseExpYears p.experience_years + (p.projects.length : ℚ) / 2 +
    (if hasInternship then 1 / 2 else 0)

/-- `required_count`: the ratio denominator, 1 when no skill is required. -/
def requiredCountQ (required : List String) : ℚ :=
  if required.isEmpty then 1 else (required.length : ℚ)

/-- Core-skills component (weight 40): exact matches at full credit, partial
matches at half, capped at 40. -/
def coreSkillsScore (exactCount partialCount : ℕ) (required : List String) : ℚ :=
  min 40 ((exactCount : ℚ) / requiredCountQ required * 40 +
    (partialCount : ℚ) / requiredCountQ required * 20)

/-- Project component (weight 25): 5 per project plus 10 for a
production/deployment mention, capped at 25. -/
def projectScore (projects : List String) : ℚ :=
  let hasProduction :=
    projects.any (fun pr => pyIn "production" (pyLower pr) ∨ pyIn "deploy" (pyLower pr))
  min 25 ((projects.length : ℚ) * 5 + (if hasProduction then 10 else 0))

def toolKeywords : List String :=
  ["git", "docker", "ci/cd", "cloud", "aws", "azure"]

/-- `tools_required`: the required skills containing a tool keyword. -/
def toolsRequired (required : List String) : List String :=
  required.filter (fun s => toolKeywords.any (fun t => pyIn t (pyLower s)))

/-- `tools_matched`: how many required tools occur inside some candidate
skill (already lowered and stripped). -/
def toolsMatched (required : List String) (candLower : List String) : ℕ :=
  ((toolsRequired required).filter
    (fun t => candLower.any (fun cs => pyIn (pyLower t) cs))).length

/-- Tools component (weight 15); 0 when no required skill names a tool. -/
def toolsScore (required : List String) (candLower : List String) : ℚ :=
  if (toolsRequired required).isEmpty then 0
  else (toolsMatched required candLower : ℚ) / ((toolsRequired required).length : ℚ) * 15

/-- The experience target per `experience_level` (entry 1, senior 5, else 3). -/
def expTarget (level : String) : ℚ :=
  if pyLower level = "entry" then 1
  else if pyLower level = "senior" then 5
  else 3

/-- Experience component (weight 10): tiered soft constraint. -/
def expAlignScore (total target : ℚ) : ℚ :=
  if total ≥ target then 10
  else if total ≥ target / 2 then 7
  else if total > 0 then 5
  else 2

/-- Soft-skills component (weight 10); flat 5 when the job lists none. -/
def softScore (jobSoft candSoft : List String) : ℚ :=
  let softMatched :=
    (jobSoft.filter (fun s => candSoft.any (fun cs => pyIn (pyLower s) (pyLower cs)))).length
  if jobSoft.isEmpty then 5
  else (softMatched : ℚ) / (jobSoft.length : ℚ) * 10

/-- Python `int()`: truncation toward zero. -/
def pyInt (q : ℚ) : ℤ :=
  if q < 0 then ⌈q⌉ else ⌊q⌋

/-- `match_level` thresholds on the final integer percentage. -/
def matchLevelOf (pct : ℤ) : String :=
  if pct ≥ 80 then "Strong"
  else if pct ≥ 60 then "Good"
  else if pct ≥ 40 then "Moderate"
  else "Low"

/-- `candidate_skills_lower`: every candidate skill, lowered and stripped. -/
def candLowerOf (sv : SkillsVal) : List String :=
  (candidateSkillsList sv).map lowerStrip

/-- The classification of the required skills against the candidate. -/
def classifiedOf (p : MatcherProfile) (job : JobRequirements) :
    List String × List String × List String :=
  classifySkills (candLowerOf p.skills) job.required_skills

/-- `total_score`: the sum of the five weighted components. -/
def totalScoreOf (p : MatcherProfile) (job : JobRequirements) : ℚ :=
  coreSkillsScore (classifiedOf p job).1.length (classifiedOf p job).2.1.length
      job.required_skills +
    projectScore p.projects +
    toolsScore job.required_skills (candLowerOf p.skills) +
    expAlignScore (totalEquivYears p) (expTarget job.experience_level) +
    softScore job.soft_skills (candidateSoft p.skills)

/-- `match_percentage = max(5, min(100, int(total_score)))`. -/
def matchPercentageOf (p : MatcherProfile) (job : JobRequirements) : ℤ :=
  max 5 (min 100 (pyInt (totalScoreOf p job)))

/-- `_generate_fallback_match`: classify each required skill, score the five
weighted components, clamp the total into `[5, 100]`. -/
def generateFallbackMatch (p : MatcherProfile) (job : JobRequirements) : MatchReport :=
  { match_percentage := matchPercentageOf p job
    match_level := matchLevelOf (matchPercentageOf p job)
    matched_skills := (classifiedOf p job).1
    partial_matches := (classifiedOf p job).2.1
    missing_skills := (classifiedOf p job).2.2 }

/-!  ## The Parsing Pipeline data model
`ResumeProfile` as the deterministic `ResumeAnalyzerAgent` emits it. -/

structure EducationEntry where
  degree : String
  field : String
  institution : String
  year : String
  confidence : String
  deriving DecidableEq

structure ExperienceEntry where
  title : String
  organization : String
  duration : String
  responsibilities : List String
  confidence : String
  deriving DecidableEq

structure ProjectEntry where
  name : String
  technologies : List String
  description : String
  confidence : String
  deriving DecidableEq

structure CertificationEntry where
  name : String
  confidence : String
  deriving DecidableEq

structure SkillLists where
  technical : List String
  tools : List String
  soft : List String
  deriving DecidableEq

structure PersonalInfo where
  name : String
  email : String
  phone : String
  location : String
  deriving DecidableEq

structure ResumeProfile where
  personal_info : PersonalInfo
  education : List EducationEntry
  experience : List ExperienceEntry
  projects : List ProjectEntry
  skills : SkillLists
  certifications : List CertificationEntry
  experience_years : String
  deriving DecidableEq

/-- The pre-validation shape (`data` before `_validate` runs). -/
structure RawProfile where
  personal_info : PersonalInfo
  education : List EducationEntry
  experience : List ExperienceEntry
  projects : List ProjectEntry
  skills : SkillLists
  certifications : List CertificationEntry
  deriving DecidableEq

/-!  ## Pass 1 — `_clean_text` -/

/-- Python `str.splitlines()` line terminators besides `\r` / `\r\n`
(handled separately so the pair counts as one break). -/
def lineTerminators : List Char :=
  ['\n', '\x0b', '\x0c', '\x1c', '\x1d', '\x1e', '\x85', '\u2028', '\u2029']

def pySplitlinesGo : List Char → List Char → List (List Char)
  | acc, [] => if acc.isEmpty then [] else [acc.reverse]
  | acc, '\r' :: '\n' :: cs => acc.reverse :: pySplitlinesGo [] cs
  | acc, '\r' :: cs => acc.reverse :: pySplitlinesGo [] cs
  | acc, c :: cs =>
      if lineTerminators.contains c then acc.reverse :: pySplitlinesGo [] cs
      else pySplitlinesGo (c :: acc) cs

/-- Python `str.splitlines()` (no trailing empty line). -/
def pySplitlines (s : String) : List String :=
  (pySplitlinesGo [] s.data).map (fun cs => ⟨cs⟩)

/-- The decorative glyphs of `deco_pattern`, each replaced by one space. -/
def decoChars : List Char :=
  "│■●▪•◦◉◆□▫▶►▸▹▻◾◼·★☆✓✔✦✧❖❯➤➔➜➣➢○".data

/-- `re.sub(deco_pattern, " ", line)`: the pattern is a single-character
class, so the substitution replaces exactly those characters. -/
def subDeco (s : String) : String :=
  ⟨s.data.map (fun c => if decoChars.contains c then ' ' else c)⟩

def flushWsRun (run : List Char) : List Char :=
  if 2 ≤ run.length then [' '] else run

/-- `re.sub(r"\s{2,}", " ", line)`: every maximal run of two or more
whitespace characters becomes one space (a lone whitespace char stays). -/
def collapseWsGo : List Char → List Char → List Char
  | run, [] => flushWsRun run.reverse
  | run, c :: cs =>
      if pyWs c then collapseWsGo (c :: run) cs
      else flushWsRun run.reverse ++ c :: collapseWsGo [] cs

def collapseWs (s : String) : String :=
  ⟨collapseWsGo [] s.data⟩

def reDigit : Re := .cls Char.isDigit

def reWs : Re := .cls pyWs

def rePlus (a : Re) : Re := .seq a (.star a)

/-- `\d+\s*/\s*\d+|\d+` (page-artifact lines, tested with `re.fullmatch`). -/
def pageNumRe : Re :=
  .alt
    (.seq (rePlus reDigit)
      (.seq (.star reWs) (.seq (.cls (fun c => c = '/')) (.seq (.star reWs) (rePlus reDigit)))))
    (rePlus reDigit)

/-- `page\s+\d+` with `re.IGNORECASE`. -/
def pageWordRe : Re :=
  .seq (reStrCI "page") (.seq (rePlus reWs) (rePlus reDigit))

/-- The per-line pass of `_clean_text`: strip glyphs, collapse whitespace,
trim. -/
def cleanLine (line : String) : String :=
  pyStrip (collapseWs (subDeco line))

/-- A cleaned line is kept unless it is a page-number artifact. -/
def keepLine (line : String) : Bool :=
  ¬ reFullmatch pageNumRe line ∧ ¬ reHasMatch pageWordRe line

/-- The line-wrap repair: merge into the previous output line when that line
ends with a hyphen/en-dash, or is shorter than 48 characters and does not
end with a period. -/
def mergeStep (merged : List String) (line : String) : List String :=
  match merged.getLast? with
  | none => merged ++ [line]
  | some last =>
      if pyEndsWith last "-" ∨ pyEndsWith last "–" ∨
          (last.length < 48 ∧ ¬ pyEndsWith last ".") then
        merged.dropLast ++ [pyStrip (last ++ " " ++ line)]
      else merged ++ [line]

/-- `_clean_text`. -/
def cleanText (text : String) : String :=
  let cleaned := ((pySplitlines text).map cleanLine).filter keepLine
  let merged := cleaned.foldl mergeStep []
  pyStrip (String.intercalate "\n" merged)

/-!  ## Pass 2 — `_detect_sections` -/

def sectionHeaders : List (String × List String) :=
  [("education", ["education", "academic background", "qualification"]),
   ("experience", ["experience", "work experience", "internship", "professional experience"]),
   ("projects", ["projects", "academic projects", "personal projects"]),
   ("skills", ["skills", "technical skills", "tools & technologies", "tech stack"]),
   ("certifications", ["certifications", "courses", "licenses"])]

structure Sections where
  education : List String
  experience : List String
  projects : List String
  skills : List String
  certifications : List String
  deriving DecidableEq

def emptySections : Sections := ⟨[], [], [], [], []⟩

def addToSection (s : Sections) (key line : String) : Sections :=
  if key = "education" then { s with education := s.education ++ [line] }
  else if key = "experience" then { s with experience := s.experience ++ [line] }
  else if key = "projects" then { s with projects := s.projects ++ [line] }
  else if key = "skills" then { s with skills := s.skills ++ [line] }
  else if key = "certifications" then { s with certifications := s.certifications ++ [line] }
  else s

/-- The first section whose alias list has an alias the lower-cased line
starts with. -/
def findHeader (line : String) : Option String :=
  (sectionHeaders.find? (fun ka => ka.2.any (fun a => pyStartsWith (pyLower line) a))).map
    (fun ka => ka.1)

def detectSectionsGo : Option String → Sections → List String → Sections
  | _, acc, [] => acc
  | current, acc, line :: rest =>
      match findHeader line with
      | some key => detectSectionsGo (some key) acc rest
      | none =>
          match current with
          | some key => detectSectionsGo current (addToSection acc key line) rest
          | none => detectSectionsGo none acc rest

def detectSections (text : String) : Sections :=
  detectSectionsGo none emptySections (pySplitlines text)

/-!  ## Pass 3 — `_extract_fields` -/

/-- `_first_match`: `group(0)` of the first match, `""` when there is none. -/
def firstMatch (re : Re) (s : String) : String :=
  (reSearch re s).getD ""

/-- `\b[A-Za-z0-9._%+-]+@[A-Za-z0-9.-]+\.[A-Za-z]{2,}\b`. -/
def emailRe : Re :=
  .seq .wb
    (.seq (rePlus (.cls (fun c => c.isAlphanum ∨ c = '.' ∨ c = '_' ∨ c = '%' ∨ c = '+' ∨ c = '-')))
      (.seq (.cls (fun c => c = '@'))
        (.seq (rePlus (.cls (fun c => c.isAlphanum ∨ c = '.' ∨ c = '-')))
          (.seq (.cls (fun c => c = '.'))
            (.seq (reAtLeast (.cls Char.isAlpha) 2) .wb)))))

/-- `[-\s\.]` (phone separators). -/
def phoneSep : Re := .cls (fun c => c = '-' ∨ pyWs c ∨ c = '.')

/-- `[\+]?[(]?[0-9]{3}[)]?[-\s\.]?[0-9]{3}[-\s\.]?[0-9]{4,6}`. -/
def phoneRe : Re :=
  .seq (.opt (.cls (fun c => c = '+')))
    (.seq (.opt (.cls (fun c => c = '(')))
      (.seq (.rep reDigit 3)
        (.seq (.opt (.cls (fun c => c = ')')))
          (.seq (.opt phoneSep)
            (.seq (.rep reDigit 3)
              (.seq (.opt phoneSep)
                (.seq (.rep reDigit 4) (.opt (.seq reDigit (.opt reDigit))))))))))

/-- `(20\d{2}|19\d{2})`. -/
def yearRe : Re :=
  .alt (.seq (reStr "20") (.rep reDigit 2)) (.seq (reStr "19") (.rep reDigit 2))

/-- A literal word with an optional trailing `s`, case-insensitively. -/
def reWordOptS (w : String) : Re :=
  .seq (reStrCI w) (.opt (.cls (fun c => c.toLower = 's')))

/-- `(\b\d+\s*(months?|years?|yrs?)\b)` with `re.IGNORECASE`. -/
def durationRe : Re :=
  .seq .wb
    (.seq (rePlus reDigit)
      (.seq (.star reWs)
        (.seq (.alt (reWordOptS "month") (.alt (reWordOptS "year") (reWordOptS "yr"))) .wb)))

/-- `\b[A-Za-z\+\#\.]{2,}\b` (project technology tokens). -/
def techTokenRe : Re :=
  .seq .wb (.seq (reAtLeast (.cls (fun c => c.isAlpha ∨ c = '+' ∨ c = '#' ∨ c = '.')) 2) .wb)

/-- `re.split` on a single-character class: split at every separator,
keeping empty pieces. -/
def splitOnCharsGo (seps : List Char) : List Char → List Char → List (List Char)
  | acc, [] => [acc.reverse]
  | acc, c :: cs =>
      if seps.contains c then acc.reverse :: splitOnCharsGo seps [] cs
      else splitOnCharsGo seps (c :: acc) cs

def splitOnChars (seps : List Char) (s : String) : List String :=
  (splitOnCharsGo seps [] s.data).map (fun cs => ⟨cs⟩)

/-- `[t.strip() for t in re.split(r"[|,-]", line) if t.strip()]`. -/
def lineTokens (line : String) : List String :=
  ((splitOnChars ['|', ',', '-'] line).map pyStrip).filter (fun t => t ≠ "")

def parseEducationLine (line : String) : EducationEntry :=
  let tokens := lineTokens line
  { degree := (tokens.get? 0).getD ""
    field := ""
    institution := (tokens.get? 1).getD ""
    year := firstMatch yearRe line
    confidence := "explicit" }

def parseExperienceLine (line : String) : ExperienceEntry :=
  let tokens := lineTokens line
  let duration := firstMatch durationRe line
  { title := (tokens.get? 0).getD ""
    organization := (tokens.get? 1).getD ""
    duration := if duration = "" then "unknown" else duration
    responsibilities := []
    confidence := "explicit" }

def parseProjectLine (line : String) : ProjectEntry :=
  let tokens := lineTokens line
  { name := (tokens.get? 0).getD ""
    technologies := reFindAll techTokenRe line
    description := (tokens.get? 1).getD ""
    confidence := "explicit" }

/-- The skills section: split each line on `[;,/|]`, strip, drop empties;
the resulting set is emitted sorted (Python `sorted(skills_set)`). -/
def skillTokens (lines : List String) : List String :=
  lines.flatMap (fun line =>
    ((splitOnChars [';', ',', '/', '|'] line).map pyStrip).filter (fun t => t ≠ ""))

/-- `skills_set`: accumulate the tokens into a duplicate-free list. -/
def addToSet (s : List String) (x : String) : List String :=
  if s.contains x then s else s ++ [x]

def skillSet (lines : List String) : List String :=
  (skillTokens lines).foldl addToSet []

/-- Insertion sort by the code-point order (Lean's `String ≤` is the same
lexicographic code-point order Python `sorted` uses; the elements are
distinct, so any correct sort yields Python's result). -/
def insertSorted (a : String) : List String → List String
  | [] => [a]
  | b :: bs => if a ≤ b then a :: b :: bs else b :: insertSorted a bs

def sortStrings (l : List String) : List String :=
  l.foldr insertSorted []

def sortedSkillSet (lines : List String) : List String :=
  sortStrings (skillSet lines)

/-- Python `str.split()`: split on whitespace runs, no empty pieces. -/
def pySplitWsGo : List Char → List Char → List String
  | acc, [] => if acc.isEmpty then [] else [⟨acc.reverse⟩]
  | acc, c :: cs =>
      if pyWs c then
        if acc.isEmpty then pySplitWsGo [] cs else (⟨acc.reverse⟩ : String) :: pySplitWsGo [] cs
      else pySplitWsGo (c :: acc) cs

def pySplitWs (s : String) : List String :=
  pySplitWsGo [] s.data

def forbiddenNameLines : List String :=
  ["education", "experience", "skills", "projects", "certifications", "summary"]

/-- 2–4 words, each alphabetic and starting with an uppercase letter. -/
def isNameLine (line : String) : Bool :=
  let words := pySplitWs line
  2 ≤ words.length ∧ words.length ≤ 4 ∧
    words.all (fun w => (w.data.headD 'a').isUpper ∧ ¬ w.data.isEmpty ∧ w.data.all Char.isAlpha)

/-- The index scan of `_extract_name`: skip out-of-range or seen indices,
skip section-header lines, accept the first title-case 2–4 word line. -/
def scanNames (candidates : List String) : List ℤ → List ℤ → String
  | _, [] => "Not Found"
  | seen, idx :: rest =>
      if idx < 0 ∨ (candidates.length : ℤ) ≤ idx ∨ seen.contains idx then
        scanNames candidates seen rest
      else
        let line := (candidates.get? idx.toNat).getD ""
        if forbiddenNameLines.contains (pyLower line) then
          scanNames candidates (idx :: seen) rest
        else if isNameLine line then line
        else scanNames candidates (idx :: seen) rest

/-- `_extract_name`. -/
def extractName (text email phone : String) : String :=
  let candidates := (((splitOnChars ['\n'] text).map pyStrip).filter (fun l => l ≠ "")).take 8
  let contactIdx : Option ℕ :=
    (candidates.enum.find? (fun il =>
      (email ≠ "" ∧ pyIn email il.2) ∨ (phone ≠ "" ∧ pyIn phone il.2))).map (fun il => il.1)
  let searchOrder : List ℤ :=
    (match contactIdx with
     | some i => [(i : ℤ) - 1, (i : ℤ) - 2, (i : ℤ) + 1]
     | none => []) ++ (List.range candidates.length).map (fun n => (n : ℤ))
  scanNames candidates [] searchOrder

/-- `_extract_fields`. -/
def extractFields (sections : Sections) (fullText : String) : RawProfile :=
  let email := firstMatch emailRe fullText
  let phone := firstMatch phoneRe fullText
  { personal_info := ⟨extractName fullText email phone, email, phone, ""⟩
    education := ((sections.education.filter (fun l => pyStrip l ≠ "")).map parseEducationLine)
    experience := ((sections.experience.filter (fun l => pyStrip l ≠ "")).map parseExperienceLine)
    projects := ((sections.projects.filter (fun l => pyStrip l ≠ "")).map parseProjectLine)
    skills := ⟨sortedSkillSet sections.skills, [], []⟩
    certifications :=
      ((sections.certifications.filter (fun l => pyStrip l ≠ "")).map
        (fun l => (⟨pyStrip l, "explicit"⟩ : CertificationEntry))) }

/-!  ## Pass 4 — `_normalize` -/

def normMap : List (String × String) :=
  [("js", "JavaScript"), ("javascript", "JavaScript"), ("fast api", "FastAPI"),
   ("rest api", "REST APIs"), ("restful api", "REST APIs")]

def stackMap : List (String × List String) :=
  [("mern", ["MongoDB", "Express", "React", "Node.js"]),
   ("mean", ["MongoDB", "Express", "Angular", "Node.js"])]

def normalizeToken (tok : String) : List String :=
  match normMap.find? (fun kv => kv.1 = pyLower tok) with
  | some kv => [kv.2]
  | none =>
      match stackMap.find? (fun kv => kv.1 = pyLower tok) with
      | some kv => kv.2
      | none => [tok]

/-- Case-insensitive dedup, first occurrence (and its casing) kept. -/
def dedupCIGo : List String → List String → List String
  | _, [] => []
  | seen, s :: rest =>
      if seen.contains (pyLower s) then dedupCIGo seen rest
      else s :: dedupCIGo (pyLower s :: seen) rest

def normalizeSkills (skills : List String) : List String :=
  dedupCIGo [] (skills.flatMap normalizeToken)

def normalizeProfile (d : RawProfile) : RawProfile :=
  { d with skills := { d.skills with technical := normalizeSkills d.skills.technical } }

/-!  ## Validation — `_validate` and `_extract_experience_years` -/

def fresherWords : List String := ["student", "fresher", "graduate", "graduating"]

def hintWords : List String := ["intern", "internship", "trainee", "developer", "engineer"]

/-- `w` occurs at the head of `cs` with `\b` on both sides (`prev` is the
character just before `cs`). -/
def hasWordFrom (w : List Char) (prev : Option Char) (cs : List Char) : Bool :=
  w.isPrefixOf cs ∧ ¬ (prev.elim false isWordChar) ∧
    ¬ (((cs.drop w.length).head?).elim false isWordChar)

def containsWordGo (ws : List (List Char)) : Option Char → List Char → Bool
  | _, [] => false
  | prev, c :: cs =>
      ws.any (fun w => hasWordFrom w prev (c :: cs)) || containsWordGo ws (some c) cs

/-- `re.search(r"\b(w1|w2|…)\b", s) is not None`: some word occurs delimited
by word boundaries (each alternative needs its own boundaries, so presence
is equivalent to a delimited occurrence of one of the words). -/
def containsWordAny (words : List String) (s : String) : Bool :=
  containsWordGo (words.map (fun w => w.data)) none s.data

/-- `20\d{2}|19\d{2}` at the head of `cs` (both alternatives are disjoint). -/
def parseYearAt : List Char → Option (List Char × List Char)
  | c1 :: c2 :: c3 :: c4 :: rest =>
      if ((c1 = '2' ∧ c2 = '0') ∨ (c1 = '1' ∧ c2 = '9')) ∧ c3.isDigit ∧ c4.isDigit then
        some ([c1, c2, c3, c4], rest)
      else none
  | _ => none

/-- `present` at the head of `cs`, case-insensitively, returned as matched. -/
def parsePresentAt (cs : List Char) : Option (List Char × List Char) :=
  if ((cs.take 7).map Char.toLower) = "present".data ∧ 7 ≤ cs.length then
    some (cs.take 7, cs.drop 7)
  else none

/-- One match of `(20\d{2}|19\d{2})\s*[-–]\s*(present|20\d{2}|19\d{2})` at
the head of `cs`, returning the two captured groups and the rest. -/
def matchDateRangeAt (cs : List Char) : Option ((String × String) × List Char) :=
  match parseYearAt cs with
  | none => none
  | some (y1, r1) =>
      match r1.dropWhile pyWs with
      | [] => none
      | d :: r3 =>
          if d = '-' ∨ d = '–' then
            let r4 := r3.dropWhile pyWs
            match parsePresentAt r4 with
            | some (e, r5) => some (((⟨y1⟩ : String), (⟨e⟩ : String)), r5)
            | none =>
                match parseYearAt r4 with
                | some (y2, r5) => some (((⟨y1⟩ : String), (⟨y2⟩ : String)), r5)
                | none => none
          else none

/-- `re.findall` for the date-range pattern: non-overlapping matches, the
scan resuming after each match. -/
def findDateRangesGo : Nat → List Char → List (String × String)
  | 0, _ => []
  | _ + 1, [] => []
  | fuel + 1, c :: cs =>
      match matchDateRangeAt (c :: cs) with
      | some (pr, rest) => pr :: findDateRangesGo fuel rest
      | none => findDateRangesGo fuel cs

def findDateRanges (s : String) : List (String × String) :=
  findDateRangesGo (s.data.length + 1) s.data

/-- `int()` of a matched 4-digit year. -/
def yearToNat (s : String) : ℕ :=
  digitsToNat s.data

/-- The months one matched range contributes: `(end-start+1)*12` when
`end ≥ start` (with `present` read as 2024), else nothing. -/
def rangeMonths (pr : String × String) : ℕ :=
  let s := yearToNat pr.1
  let e := if pyLower pr.2 = "present" then 2024 else yearToNat pr.2
  if s ≤ e then (e - s + 1) * 12 else 0

/-- Banker's rounding (Python `round`) of a rational to an integer. -/
def roundHalfEvenQ (q : ℚ) : ℤ :=
  if q - ⌊q⌋ < 1 / 2 then ⌊q⌋
  else if q - ⌊q⌋ > 1 / 2 then ⌊q⌋ + 1
  else if ⌊q⌋ % 2 = 0 then ⌊q⌋ else ⌊q⌋ + 1

/-- `f"{years}"` for the one-decimal float `round(months/12, 1)`, given as
tenths (the reachable month totals are multiples of 6, so the value is an
exact multiple of a tenth and prints as `int.frac`). -/
def formatTenths (tenths : ℤ) : String :=
  toString (tenths / 10) ++ "." ++ toString (tenths % 10)

/-- `_extract_experience_years` (`experience` and `projects` are the lists
held by `data` when the source calls it, i.e. after the validator's
filters). -/
def extractExperienceYears (text : String) (experience : List ExperienceEntry)
    (projects : List ProjectEntry) : String :=
  let lower := pyLower text
  if experience = [] ∧ (¬ projects.isEmpty ∨ containsWordAny fresherWords lower) then
    "Fresher"
  else
    let totalMonths0 := ((findDateRanges text).map rangeMonths).sum
    let totalMonths :=
      if totalMonths0 = 0 ∧ containsWordAny hintWords lower then 6 else totalMonths0
    if totalMonths = 0 then "Not Mentioned"
    else
      let tenths := max 0 (roundHalfEvenQ ((totalMonths : ℚ) * 10 / 12))
      if tenths = 0 then "Fresher"
      else formatTenths tenths ++ " years"

def confidenceValues : List String := ["explicit", "contextual", "uncertain"]

def coerceConf (c : String) : String :=
  if confidenceValues.contains c then c else "explicit"

/-- `_validate`: drop experience entries with an empty organization and
projects with no technologies, coerce stray confidence values, infer
`experience_years`, and emit the strict output schema. -/
def validateProfile (d : RawProfile) (fullText : String) : ResumeProfile :=
  let experience :=
    (d.experience.filter (fun e => e.organization ≠ "")).map
      (fun e => { e with confidence := coerceConf e.confidence })
  let projects :=
    (d.projects.filter (fun p => ¬ p.technologies.isEmpty)).map
      (fun p => { p with confidence := coerceConf p.confidence })
  { personal_info := d.personal_info
    education := d.education.map (fun e => { e with confidence := coerceConf e.confidence })
    experience := experience
    projects := projects
    skills := d.skills
    certifications := d.certifications
    experience_years := extractExperienceYears fullText experience projects }

/-- `analyze`: the full deterministic pipeline. -/
def analyze (resumeText : String) : ResumeProfile :=
  let cleaned := cleanText resumeText
  validateProfile (normalizeProfile (extractFields (detectSections cleaned) cleaned)) cleaned

/-!  ## Adding one skill to a candidate's skill set (for the monotonicity
claim): append `x` to the list under key `k` of a dict-shaped skills value
(adding the key when absent), or to a list-shaped value. -/

def dictAppend (d : List (String × List String)) (k x : String) :
    List (String × List String) :=
  match d with
  | [] => [(k, [x])]
  | e :: rest => if e.1 = k then (e.1, e.2 ++ [x]) :: rest else e :: dictAppend rest k x

def addSkill (sv : SkillsVal) (k x : String) : SkillsVal :=
  match sv with
  | .dict d => .dict (dictAppend d k x)
  | .list l => .list (l ++ [x])

/-!  ## Concrete instances used by counterexamples and witnesses -/

/-- A skills object with the spec data model's keys (`technical`, `tools`,
`soft`), holding `react` as a technical skill. -/
def specSkillsDict : List (String × List String) :=
  [("technical", ["react"]), ("tools", []), ("soft", [])]

def specKeysProfile : MatcherProfile :=
  ⟨.dict specSkillsDict, "0", [], []⟩

def reactJob : JobRequirements :=
  ⟨"developer", ["react"], [], [], "mid"⟩

/-- A skills object with the keys the matcher reads. -/
def codeKeysProfile : MatcherProfile :=
  ⟨.dict [("technical_skills", ["React"])], "0", [], []⟩

def emptyReqJob : JobRequirements :=
  ⟨"developer", [], [], [], "mid"⟩

/-- The profile `analyze` returns for empty input: every substructure at
its empty default, except that the name falls back to the literal
`"Not Found"` and `experience_years` to `"Not Mentioned"`. -/
def emptyDefaultProfile : ResumeProfile :=
  ⟨⟨"Not Found", "", "", ""⟩, [], [], [], ⟨[], [], []⟩, [], "Not Mentioned"⟩

/-!  # Theorems

First the shared helper lemmas, then one theorem per claim (with its
counterexample and witness where required). -/

theorem requiredCountQ_pos (req : List String) : 0 < requiredCountQ req := by
  unfold requiredCountQ
  split
  · norm_num
  · rename_i h
    have hne : req ≠ [] := by
      intro hnil
      simp [hnil] at h
    exact_mod_cast List.length_pos.mpr hne

/-!  ## C10 / C7: the clamp -/

/-- C10: for every candidate profile and job requirements — the empty case
included — the fallback match percentage is an integer in `[5, 100]`; the
floor of 5 applies unconditionally. -/
theorem matchPercentage_between_5_and_100 (p : MatcherProfile) (job : JobRequirements) :
    5 ≤ (generateFallbackMatch p job).match_percentage ∧
      (generateFallbackMatch p job).match_percentage ≤ 100 := by
  show 5 ≤ matchPercentageOf p job ∧ matchPercentageOf p job ≤ 100
  unfold matchPercentageOf
  exact ⟨le_max_left _ _, max_le (by norm_num) (min_le_left _ _)⟩

/-- C7: when the report holds any exact or partial match, the percentage is
at least 5 (the clamp in fact enforces this unconditionally). -/
theorem matchPercentage_floor_with_matches (p : MatcherProfile) (job : JobRequirements)
    (h : (generateFallbackMatch p job).matched_skills ≠ [] ∨
      (generateFallbackMatch p job).partial_matches ≠ []) :
    5 ≤ (generateFallbackMatch p job).match_percentage := by
  show 5 ≤ matchPercentageOf p job
  unfold matchPercentageOf
  exact le_max_left _ _

theorem matchPercentage_floor_with_matches_witness :
    ((generateFallbackMatch codeKeysProfile reactJob).matched_skills ≠ [] ∨
      (generateFallbackMatch codeKeysProfile reactJob).partial_matches ≠ []) ∧
      5 ≤ (generateFallbackMatch codeKeysProfile reactJob).match_percentage :=
  ⟨Or.inl (by decide),
    matchPercentage_floor_with_matches codeKeysProfile reactJob (Or.inl (by decide))⟩

/-!  ## C9: determinism of the Parsing Pipeline

The source's `analyze` chain reads no state besides its argument (every
helper is a pure function of its inputs), which the embedding reflects by
being a function; two runs on the same text are therefore the same value. -/

/-- C9: running the Parsing Pipeline twice on identical text yields
identical `ResumeProfile` values. -/
theorem analyze_deterministic (t : String) : analyze t = analyze t := rfl

/-!  ## C3: the `2019-2022` experience-years scenario

The source credits `(end - start + 1) * 12` months per range, so
`2019-2022` contributes `(2022 - 2019 + 1) * 12 = 48` months — four years,
not the 36 months / `"3.0 years"` the claim announces alongside the same
formula. -/

/-- C3 counterexample: on the text `"2019-2022"` with no retained
experience entries and no projects, the inference does not return
`"3.0 years"`. -/
theorem experienceYears_2019_2022_not_three :
    extractExperienceYears "2019-2022" [] [] ≠ "3.0 years" := by
  with_unfolding_all decide

/-- C3 amended: the scenario yields `"4.0 years"` — `(2022-2019+1)*12 = 48`
months, divided by 12. -/
theorem experienceYears_2019_2022 :
    extractExperienceYears "2019-2022" [] [] = "4.0 years"
      ∧ rangeMonths ("2019", "2022") = 48 := by
  with_unfolding_all decide

/-!  ## C5: empty or whitespace-only input -/

/-- C5 counterexample: on empty input the profile's name is the literal
`"Not Found"`, not the empty string the claim requires. -/
theorem analyze_empty_name_not_empty :
    (analyze "").personal_info.name = "Not Found" ∧
      ¬ (analyze "").personal_info.name = "" := by
  with_unfolding_all decide

/-!  ## C1: which keys the exact-match test reads -/

theorem classifySkills_fst_mem (cl req : List String) (s : String) :
    s ∈ (classifySkills cl req).1 ↔ s ∈ req ∧ lowerStrip s ∈ cl := by
  induction req with
  | nil => simp [classifySkills]
  | cons skill rest ih =>
      by_cases hc : lowerStrip skill ∈ cl
      · have h1 : (classifySkills cl (skill :: rest)).1 = skill :: (classifySkills cl rest).1 := by
          simp [classifySkills, hc]
        rw [h1]
        simp only [List.mem_cons]
        constructor
        · rintro (rfl | hm)
          · exact ⟨Or.inl rfl, hc⟩
          · obtain ⟨h2, h3⟩ := ih.mp hm
            exact ⟨Or.inr h2, h3⟩
        · rintro ⟨hmem, hcont⟩
          rcases hmem with rfl | hr
          · exact Or.inl rfl
          · exact Or.inr (ih.mpr ⟨hr, hcont⟩)
      · have h1 : (classifySkills cl (skill :: rest)).1 = (classifySkills cl rest).1 := by
          rcases hfp : findPartialNote skill (lowerStrip skill) cl with _ | note <;>
            simp [classifySkills, hc, hfp]
        rw [h1, ih]
        constructor
        · rintro ⟨hr, hcont⟩
          exact ⟨List.mem_cons_of_mem _ hr, hcont⟩
        · rintro ⟨hmem, hcont⟩
          rcases List.mem_cons.mp hmem with rfl | hr
          · exact absurd hcont hc
          · exact ⟨hr, hcont⟩

/-- C1 counterexample: a candidate profile whose skills object uses the
spec data model's keys (`technical`/`tools`/`soft`) lists `react`; `react`
is required and present (case-insensitively) in the flattened union of
those three lists, yet the matcher does not classify it as an exact match:
it reads the keys `technical_skills`/`programming_languages`/
`tools_frameworks`/`soft_skills` instead. -/
theorem exact_match_spec_keys_refuted :
    pyLower "react" ∈ ((dictGet specSkillsDict "technical" ++ dictGet specSkillsDict "tools" ++
        dictGet specSkillsDict "soft").map pyLower) ∧
      "react" ∈ reactJob.required_skills ∧
      "react" ∉ (generateFallbackMatch specKeysProfile reactJob).matched_skills := by
  decide

/-- C1 amended: a required skill `s` is classified as an exact match
(appended to `matched_skills`) exactly when `s`, lowered and stripped, is
present in the lowered-and-stripped flattened union of the profile's
`technical_skills`, `programming_languages`, `tools_frameworks` and
`soft_skills` lists — the keys the code reads; for a profile under the
spec data model's keys that union is empty. -/
theorem matched_iff_lowered_in_code_keys (p : MatcherProfile) (job : JobRequirements)
    (s : String) (hs : s ∈ job.required_skills) :
    s ∈ (generateFallbackMatch p job).matched_skills ↔
      lowerStrip s ∈ (candidateSkillsList p.skills).map lowerStrip := by
  show s ∈ (classifiedOf p job).1 ↔ _
  rw [classifiedOf, classifySkills_fst_mem]
  show s ∈ job.required_skills ∧ lowerStrip s ∈ candLowerOf p.skills ↔ _
  rw [candLowerOf]
  simp [hs]

theorem matched_iff_lowered_in_code_keys_witness :
    ("react" ∈ reactJob.required_skills) ∧
      ("react" ∈ (generateFallbackMatch codeKeysProfile reactJob).matched_skills ↔
        lowerStrip "react" ∈ (candidateSkillsList codeKeysProfile.skills).map lowerStrip) :=
  ⟨by decide, matched_iff_lowered_in_code_keys codeKeysProfile reactJob "react" (by decide)⟩

/-!  ## C6: empty `required_skills` -/

/-- C6: with an empty required-skills list the report's three skill lists
are empty and the percentage is the clamp of the remaining four components;
the core-skills component contributes 0 (its ratios fall back to a
denominator of 1, not a division by zero). -/
theorem emptyRequired_report (p : MatcherProfile) (job : JobRequirements)
    (h : job.required_skills = []) :
    (generateFallbackMatch p job).matched_skills = [] ∧
      (generateFallbackMatch p job).partial_matches = [] ∧
      (generateFallbackMatch p job).missing_skills = [] ∧
      coreSkillsScore (generateFallbackMatch p job).matched_skills.length
        (generateFallbackMatch p job).partial_matches.length job.required_skills = 0 ∧
      (generateFallbackMatch p job).match_percentage =
        max 5 (min 100 (pyInt (projectScore p.projects +
          toolsScore job.required_skills (candLowerOf p.skills) +
          expAlignScore (totalEquivYears p) (expTarget job.experience_level) +
          softScore job.soft_skills (candidateSoft p.skills)))) := by
  have hcls : classifiedOf p job = ([], [], []) := by
    rw [classifiedOf, h]
    rfl
  have hm : (generateFallbackMatch p job).matched_skills = [] := by
    show (classifiedOf p job).1 = []
    rw [hcls]
  have hpm : (generateFallbackMatch p job).partial_matches = [] := by
    show (classifiedOf p job).2.1 = []
    rw [hcls]
  have hmiss : (generateFallbackMatch p job).missing_skills = [] := by
    show (classifiedOf p job).2.2 = []
    rw [hcls]
  have hcore : coreSkillsScore 0 0 job.required_skills = 0 := by
    unfold coreSkillsScore
    norm_num
  refine ⟨hm, hpm, hmiss, ?_, ?_⟩
  · rw [hm, hpm]
    simpa using hcore
  · show matchPercentageOf p job = _
    unfold matchPercentageOf totalScoreOf
    rw [hcls]
    simp only [List.length_nil]
    rw [hcore, zero_add]

theorem emptyRequired_report_witness :
    emptyReqJob.required_skills = [] ∧
      ((generateFallbackMatch codeKeysProfile emptyReqJob).matched_skills = [] ∧
        (generateFallbackMatch codeKeysProfile emptyReqJob).partial_matches = [] ∧
        (generateFallbackMatch codeKeysProfile emptyReqJob).missing_skills = [] ∧
        coreSkillsScore (generateFallbackMatch codeKeysProfile emptyReqJob).matched_skills.length
          (generateFallbackMatch codeKeysProfile emptyReqJob).partial_matches.length
          emptyReqJob.required_skills = 0 ∧
        (generateFallbackMatch codeKeysProfile emptyReqJob).match_percentage =
          max 5 (min 100 (pyInt (projectScore codeKeysProfile.projects +
            toolsScore emptyReqJob.required_skills (candLowerOf codeKeysProfile.skills) +
            expAlignScore (totalEquivYears codeKeysProfile) (expTarget emptyReqJob.experience_level) +
            softScore emptyReqJob.soft_skills (candidateSoft codeKeysProfile.skills))))) :=
  ⟨rfl, emptyRequired_report codeKeysProfile emptyReqJob rfl⟩

/-!  ## C8: the validator's filters -/

theorem validateProfile_filters (d : RawProfile) (ft : String) :
    (∀ e ∈ (validateProfile d ft).experience, e.organization ≠ "") ∧
      (∀ pr ∈ (validateProfile d ft).projects, pr.technologies ≠ []) := by
  constructor
  · intro e he
    have he' : e ∈ (d.experience.filter (fun e => e.organization ≠ "")).map
        (fun e => { e with confidence := coerceConf e.confidence }) := he
    obtain ⟨e', hmem, rfl⟩ := List.mem_map.mp he'
    have h2 : e'.organization ≠ "" := by simpa using List.of_mem_filter hmem
    simpa using h2
  · intro pr hpr
    have hpr' : pr ∈ (d.projects.filter (fun p => ¬ p.technologies.isEmpty)).map
        (fun p => { p with confidence := coerceConf p.confidence }) := hpr
    obtain ⟨p', hmem, rfl⟩ := List.mem_map.mp hpr'
    have h2 : ¬ p'.technologies.isEmpty := by simpa using List.of_mem_filter hmem
    have h3 : p'.technologies ≠ [] := by
      intro hnil
      rw [hnil] at h2
      simp at h2
    simpa using h3

/-- C8: in every profile the pipeline emits, every retained experience
entry has a non-empty organization and every retained project a non-empty
technologies list (the validator filters out the others). -/
theorem retained_entries_invariant (t : String) :
    (∀ e ∈ (analyze t).experience, e.organization ≠ "") ∧
      (∀ pr ∈ (analyze t).projects, pr.technologies ≠ []) :=
  validateProfile_filters
    (normalizeProfile (extractFields (detectSections (cleanText t)) (cleanText t))) (cleanText t)

/-!  ## C4: deduplication and ordering of the technical skills -/

theorem dedupCIGo_pairwise (l : List String) (seen : List String) :
    List.Pairwise (fun a b => pyLower a ≠ pyLower b) (dedupCIGo seen l) ∧
      ∀ a ∈ dedupCIGo seen l, pyLower a ∉ seen := by
  induction l generalizing seen with
  | nil => simp [dedupCIGo]
  | cons s rest ih =>
      by_cases hc : seen.contains (pyLower s) = true
      · rw [dedupCIGo, if_pos hc]
        exact ih seen
      · rw [dedupCIGo, if_neg hc]
        obtain ⟨hpw, hni⟩ := ih (pyLower s :: seen)
        constructor
        · refine List.Pairwise.cons ?_ hpw
          intro b hb hEq
          apply hni b hb
          rw [← hEq]
          exact List.mem_cons_self _ _
        · intro a ha
          rcases List.mem_cons.mp ha with rfl | ha'
          · simpa using hc
          · exact fun hmem => (hni a ha') (List.mem_cons_of_mem _ hmem)

set_option maxHeartbeats 2000000 in
/-- C4 counterexample: in `"Skills.\npython; java"` the skills-section body
is the single line `python; java`, whose tokens are first seen in the order
python, java; the emitted technical list is `["java", "python"]` — sorted
order, not first-seen order. -/
theorem technical_not_first_seen :
    (detectSections (cleanText "Skills.\npython; java")).skills = ["python; java"] ∧
      skillTokens ["python; java"] = ["python", "java"] ∧
      (analyze "Skills.\npython; java").skills.technical = ["java", "python"] := by
  with_unfolding_all decide

theorem analyze_eq_validate (t : String) :
    analyze t = validateProfile
      (normalizeProfile (extractFields (detectSections (cleanText t)) (cleanText t)))
      (cleanText t) := rfl

theorem validateProfile_skills (d : RawProfile) (ft : String) :
    (validateProfile d ft).skills = d.skills := rfl

theorem normalizeProfile_technical (d : RawProfile) :
    (normalizeProfile d).skills.technical = normalizeSkills d.skills.technical := rfl

theorem extractFields_technical (sections : Sections) (ft : String) :
    (extractFields sections ft).skills.technical = sortedSkillSet sections.skills := rfl

theorem normalizeSkills_eq (skills : List String) :
    normalizeSkills skills = dedupCIGo [] (skills.flatMap normalizeToken) := rfl

/-- C4 amended: the technical list never holds two entries equal
case-insensitively, and its order is the lexicographically sorted order of
the distinct raw tokens of the skills section (then synonym/stack
normalization), the survivor of a case-insensitive clash being the first in
that sorted-then-normalized sequence — not first-seen order. -/
theorem technical_dedup_and_order (t : String) :
    List.Pairwise (fun a b => pyLower a ≠ pyLower b) (analyze t).skills.technical ∧
      (analyze t).skills.technical =
        normalizeSkills (sortedSkillSet (detectSections (cleanText t)).skills) := by
  have heq : (analyze t).skills.technical =
      normalizeSkills (sortedSkillSet (detectSections (cleanText t)).skills) := by
    rw [analyze_eq_validate, validateProfile_skills, normalizeProfile_technical,
      extractFields_technical]
  refine ⟨?_, heq⟩
  rw [heq, normalizeSkills_eq]
  exact (dedupCIGo_pairwise _ []).1

/-!  ## C5 (amended): whitespace-only input cleans to the empty text -/

theorem pySplitlinesGo_ws : ∀ (n : ℕ) (cs acc : List Char), cs.length ≤ n →
    (∀ c ∈ acc, pyWs c = true) → (∀ c ∈ cs, pyWs c = true) →
    ∀ l ∈ pySplitlinesGo acc cs, ∀ c ∈ l, pyWs c = true := by
  intro n
  induction n with
  | zero =>
      intro cs acc hlen hacc _ l hl c hc
      obtain rfl : cs = [] := List.length_eq_zero.mp (Nat.le_zero.mp hlen)
      rw [pySplitlinesGo] at hl
      split at hl
      · simp at hl
      · rw [List.mem_singleton] at hl
        subst hl
        exact hacc c (List.mem_reverse.mp hc)
  | succ n ih =>
      intro cs acc hlen hacc hcs l hl c hc
      rw [pySplitlinesGo.eq_def] at hl
      split at hl
      · -- cs = []
        split at hl
        · simp at hl
        · rw [List.mem_singleton] at hl
          subst hl
          exact hacc c (List.mem_reverse.mp hc)
      · -- cs = '\r' :: '\n' :: cs₁
        rename_i cs₁
        rcases List.mem_cons.mp hl with rfl | hl'
        · exact hacc c (List.mem_reverse.mp hc)
        · refine ih cs₁ [] ?_ (by simp) (fun d hd => hcs d (by simp [hd])) l hl' c hc
          simp only [List.length_cons] at hlen
          omega
      · -- cs = '\r' :: cs₁, cs₁ not headed by '\n'
        rename_i cs₁ _
        rcases List.mem_cons.mp hl with rfl | hl'
        · exact hacc c (List.mem_reverse.mp hc)
        · refine ih cs₁ [] ?_ (by simp) (fun d hd => hcs d (by simp [hd])) l hl' c hc
          simp only [List.length_cons] at hlen
          omega
      · -- cs = c₁ :: cs₁, c₁ not '\r'
        rename_i c₁ cs₁ _ _
        split at hl
        · -- line terminator
          rcases List.mem_cons.mp hl with rfl | hl'
          · exact hacc c (List.mem_reverse.mp hc)
          · refine ih cs₁ [] ?_ (by simp) (fun d hd => hcs d (by simp [hd])) l hl' c hc
            simp only [List.length_cons] at hlen
            omega
        · -- ordinary character: accumulate
          refine ih cs₁ (c₁ :: acc) ?_ (fun d hd => ?_) (fun d hd => hcs d (by simp [hd])) l hl c hc
          · simp only [List.length_cons] at hlen
            omega
          · rcases List.mem_cons.mp hd with rfl | hd'
            · exact hcs d (by simp)
            · exact hacc d hd'

theorem pySplitlines_ws (t : String) (h : ∀ c ∈ t.data, pyWs c = true) :
    ∀ l ∈ pySplitlines t, ∀ c ∈ l.data, pyWs c = true := by
  intro l hl
  obtain ⟨cs, hcs, rfl⟩ := List.mem_map.mp hl
  exact pySplitlinesGo_ws t.data.length t.data [] le_rfl (by simp) h cs hcs

theorem subDeco_ws (s : String) (h : ∀ c ∈ s.data, pyWs c = true) :
    ∀ c ∈ (subDeco s).data, pyWs c = true := by
  intro c hc
  obtain ⟨c', hc', rfl⟩ := List.mem_map.mp hc
  split
  · decide
  · exact h c' hc'

theorem flushWsRun_ws (run : List Char) (h : ∀ c ∈ run, pyWs c = true) :
    ∀ c ∈ flushWsRun run, pyWs c = true := by
  unfold flushWsRun
  split
  · intro c hc
    rw [List.mem_singleton] at hc
    subst hc
    decide
  · exact h

theorem collapseWsGo_ws : ∀ (run cs : List Char), (∀ c ∈ run, pyWs c = true) →
    (∀ c ∈ cs, pyWs c = true) → ∀ c ∈ collapseWsGo run cs, pyWs c = true := by
  intro run cs
  induction run, cs using collapseWsGo.induct with
  | case1 run =>
      intro hrun _
      rw [collapseWsGo]
      exact flushWsRun_ws _ (fun c hc => hrun c (List.mem_reverse.mp hc))
  | case2 run c' cs hws ih =>
      intro hrun hcs
      rw [collapseWsGo, if_pos hws]
      refine ih (fun d hd => ?_) (fun d hd => hcs d (by simp [hd]))
      rcases List.mem_cons.mp hd with rfl | hd'
      · exact hws
      · exact hrun d hd'
  | case3 run c' cs hws ih =>
      intro hrun hcs
      rw [collapseWsGo, if_neg hws]
      intro c hc
      rcases List.mem_append.mp hc with hflush | hrest
      · exact flushWsRun_ws _ (fun d hd => hrun d (List.mem_reverse.mp hd)) c hflush
      · rcases List.mem_cons.mp hrest with rfl | hc'
        · exact hcs c (by simp)
        · exact ih (by simp) (fun d hd => hcs d (by simp [hd])) c hc'

theorem pyStrip_ws (s : String) (h : ∀ c ∈ s.data, pyWs c = true) : pyStrip s = "" := by
  unfold pyStrip pyStripList
  have h1 : s.data.dropWhile pyWs = [] := by
    rw [List.dropWhile_eq_nil_iff]
    exact h
  rw [h1]
  rfl

theorem cleanLine_ws (s : String) (h : ∀ c ∈ s.data, pyWs c = true) : cleanLine s = "" := by
  unfold cleanLine
  apply pyStrip_ws
  exact collapseWsGo_ws [] (subDeco s).data (by simp) (subDeco_ws s h)

theorem foldl_mergeStep_single (l : List String) (h : ∀ s ∈ l, s = "") :
    l.foldl mergeStep [""] = [""] := by
  induction l with
  | nil => rfl
  | cons s rest ih =>
      have hs : s = "" := h s (by simp)
      subst hs
      rw [List.foldl_cons]
      have hstep : mergeStep [""] "" = [""] := by decide
      rw [hstep]
      exact ih (fun x hx => h x (by simp [hx]))

theorem foldl_mergeStep_all_empty (l : List String) (h : ∀ s ∈ l, s = "") :
    l.foldl mergeStep [] = [] ∨ l.foldl mergeStep [] = [""] := by
  cases l with
  | nil => exact Or.inl rfl
  | cons s rest =>
      right
      have hs : s = "" := h s (by simp)
      subst hs
      rw [List.foldl_cons]
      have hstep : mergeStep [] "" = [""] := by decide
      rw [hstep]
      exact foldl_mergeStep_single rest (fun x hx => h x (by simp [hx]))

theorem cleanText_ws (t : String) (h : ∀ c ∈ t.data, pyWs c = true) : cleanText t = "" := by
  show pyStrip (String.intercalate "\n"
    ((((pySplitlines t).map cleanLine).filter keepLine).foldl mergeStep [])) = ""
  have hall : ∀ s ∈ ((pySplitlines t).map cleanLine).filter keepLine, s = "" := by
    intro s hs
    have hs' := List.mem_of_mem_filter hs
    obtain ⟨l, hl, rfl⟩ := List.mem_map.mp hs'
    exact cleanLine_ws l (pySplitlines_ws t h l hl)
  rcases foldl_mergeStep_all_empty _ hall with hm | hm
  · rw [hm]
    rfl
  · rw [hm]
    rfl

/-- C5 amended: on empty or whitespace-only resume text the pipeline
returns (without failing) the profile with every field at its empty
default, except that `personal_info.name` is the fallback literal
`"Not Found"` and `experience_years` is `"Not Mentioned"`. -/
theorem analyze_whitespace_only (t : String) (h : ∀ c ∈ t.data, pyWs c = true) :
    analyze t = emptyDefaultProfile := by
  rw [analyze_eq_validate, cleanText_ws t h]
  with_unfolding_all decide

theorem analyze_whitespace_only_witness :
    (∀ c ∈ (" \n\t" : String).data, pyWs c = true) ∧
      analyze " \n\t" = emptyDefaultProfile :=
  ⟨by decide, analyze_whitespace_only " \n\t" (by decide)⟩

/-!  ## C2: monotonicity of the percentage in the candidate's skills

The score depends on the candidate's skills only through the lowered
skill list and the raw soft-skill list, and each of the five components is
monotone when those lists grow (membership-wise); `int()` and the final
clamp are monotone as well. -/

theorem pyInt_mono {a b : ℚ} (h : a ≤ b) : pyInt a ≤ pyInt b := by
  unfold pyInt
  split_ifs with ha hb hb
  · exact Int.ceil_mono h
  · calc ⌈a⌉ ≤ 0 := Int.ceil_le.mpr (by exact_mod_cast le_of_lt ha)
    _ ≤ ⌊b⌋ := Int.floor_nonneg.mpr (not_lt.mp hb)
  · exact absurd (lt_of_le_of_lt h hb) ha
  · exact Int.floor_mono h

theorem findPartialNote_isSome_iff (skill skillLower : String) (cl : List String) :
    (findPartialNote skill skillLower cl).isSome = true ↔
      ∃ c ∈ cl, (pyIn skillLower c = true ∨ pyIn c skillLower = true ∨
        (categoryFor skillLower c).isSome = true) := by
  induction cl with
  | nil => simp [findPartialNote]
  | cons c cs ih =>
      rw [findPartialNote]
      by_cases h1 : pyIn skillLower c = true ∨ pyIn c skillLower = true
      · rw [if_pos h1]
        simp only [Option.isSome_some, true_iff]
        exact ⟨c, by simp, Or.imp id Or.inl h1⟩
      · rw [if_neg h1]
        cases hcat : categoryFor skillLower c with
        | some cat =>
            simp only [Option.isSome_some, true_iff]
            exact ⟨c, by simp, Or.inr (Or.inr (by simp [hcat]))⟩
        | none =>
            rw [ih]
            push_neg at h1
            constructor
            · rintro ⟨d, hd, hcond⟩
              exact ⟨d, by simp [hd], hcond⟩
            · rintro ⟨d, hd, hcond⟩
              rcases List.mem_cons.mp hd with rfl | hd'
              · rcases hcond with hx | hx | hx
                · exact absurd hx (by simp [h1.1])
                · exact absurd hx (by simp [h1.2])
                · rw [hcat] at hx
                  simp at hx
              · exact ⟨d, hd', hcond⟩

theorem contains_eq_true_iff_mem (l : List String) (a : String) :
    l.contains a = true ↔ a ∈ l := by
  simp

theorem classifySkills_cons_pos (cl : List String) (skill : String) (rest : List String)
    (hc : cl.contains (lowerStrip skill) = true) :
    classifySkills cl (skill :: rest) =
      (skill :: (classifySkills cl rest).1, (classifySkills cl rest).2.1,
        (classifySkills cl rest).2.2) := by
  rw [classifySkills.eq_def]
  simp only [hc, if_true]

theorem classifySkills_cons_note (cl : List String) (skill : String) (rest : List String)
    (note : String) (hc : ¬ cl.contains (lowerStrip skill) = true)
    (hfp : findPartialNote skill (lowerStrip skill) cl = some note) :
    classifySkills cl (skill :: rest) =
      ((classifySkills cl rest).1, note :: (classifySkills cl rest).2.1,
        (classifySkills cl rest).2.2) := by
  rw [classifySkills.eq_def]
  simp only [hc, hfp]
  rfl

theorem classifySkills_cons_missing (cl : List String) (skill : String) (rest : List String)
    (hc : ¬ cl.contains (lowerStrip skill) = true)
    (hfp : findPartialNote skill (lowerStrip skill) cl = none) :
    classifySkills cl (skill :: rest) =
      ((classifySkills cl rest).1, (classifySkills cl rest).2.1,
        skill :: (classifySkills cl rest).2.2) := by
  rw [classifySkills.eq_def]
  simp only [hc, hfp]
  rfl

theorem classify_weight_mono (cl cl' : List String) (req : List String)
    (hsub : cl ⊆ cl') :
    40 * (classifySkills cl req).1.length + 20 * (classifySkills cl req).2.1.length ≤
      40 * (classifySkills cl' req).1.length + 20 * (classifySkills cl' req).2.1.length := by
  induction req with
  | nil => simp [classifySkills]
  | cons skill rest ih =>
      by_cases hc : cl.contains (lowerStrip skill) = true
      · have hc' : cl'.contains (lowerStrip skill) = true := by
          rw [contains_eq_true_iff_mem] at hc ⊢
          exact hsub hc
        rw [classifySkills_cons_pos cl skill rest hc, classifySkills_cons_pos cl' skill rest hc']
        simp only [List.length_cons]
        omega
      · by_cases hc' : cl'.contains (lowerStrip skill) = true
        · rcases hfp : findPartialNote skill (lowerStrip skill) cl with _ | note
          · rw [classifySkills_cons_missing cl skill rest hc hfp,
              classifySkills_cons_pos cl' skill rest hc']
            simp only [List.length_cons]
            omega
          · rw [classifySkills_cons_note cl skill rest note hc hfp,
              classifySkills_cons_pos cl' skill rest hc']
            simp only [List.length_cons]
            omega
        · rcases hfp : findPartialNote skill (lowerStrip skill) cl with _ | note
          · rcases hfp' : findPartialNote skill (lowerStrip skill) cl' with _ | note'
            · rw [classifySkills_cons_missing cl skill rest hc hfp,
                classifySkills_cons_missing cl' skill rest hc' hfp']
              dsimp only
              omega
            · rw [classifySkills_cons_missing cl skill rest hc hfp,
                classifySkills_cons_note cl' skill rest note' hc' hfp']
              simp only [List.length_cons]
              omega
          · have hsome : (findPartialNote skill (lowerStrip skill) cl').isSome = true := by
              rw [findPartialNote_isSome_iff]
              obtain ⟨d, hd, hcond⟩ := (findPartialNote_isSome_iff skill (lowerStrip skill) cl).mp
                (by simp [hfp])
              exact ⟨d, hsub hd, hcond⟩
            rcases hfp' : findPartialNote skill (lowerStrip skill) cl' with _ | note'
            · rw [hfp'] at hsome
              simp at hsome
            · rw [classifySkills_cons_note cl skill rest note hc hfp,
                classifySkills_cons_note cl' skill rest note' hc' hfp']
              simp only [List.length_cons]
              omega

theorem coreSkillsScore_mono {m pm m' pm' : ℕ} (req : List String)
    (h : 40 * m + 20 * pm ≤ 40 * m' + 20 * pm') :
    coreSkillsScore m pm req ≤ coreSkillsScore m' pm' req := by
  unfold coreSkillsScore
  have hn := requiredCountQ_pos req
  apply min_le_min le_rfl
  have key : ∀ (x y : ℕ), (x : ℚ) / requiredCountQ req * 40 + (y : ℚ) / requiredCountQ req * 20 =
      ((40 * x + 20 * y : ℕ) : ℚ) / requiredCountQ req := by
    intro x y
    push_cast
    ring
  rw [key, key]
  exact (div_le_div_right hn).mpr (by exact_mod_cast h)

theorem any_of_subset {cl cl' : List String} (hsub : cl ⊆ cl') (p : String → Bool)
    (h : cl.any p = true) : cl'.any p = true := by
  rw [List.any_eq_true] at h ⊢
  obtain ⟨x, hx, hpx⟩ := h
  exact ⟨x, hsub hx, hpx⟩

theorem filter_length_mono {α : Type} (l : List α) (p q : α → Bool)
    (h : ∀ a ∈ l, p a = true → q a = true) :
    (l.filter p).length ≤ (l.filter q).length := by
  rw [← List.countP_eq_length_filter, ← List.countP_eq_length_filter]
  exact List.countP_mono_left h

theorem toolsScore_mono (req : List String) {cl cl' : List String} (hsub : cl ⊆ cl') :
    toolsScore req cl ≤ toolsScore req cl' := by
  unfold toolsScore
  split_ifs with h
  · exact le_refl 0
  · have hlen : 0 < ((toolsRequired req).length : ℚ) := by
      have hne : toolsRequired req ≠ [] := by
        intro hnil
        simp [hnil] at h
      exact_mod_cast List.length_pos.mpr hne
    apply mul_le_mul_of_nonneg_right _ (by norm_num)
    refine (div_le_div_right hlen).mpr ?_
    have : toolsMatched req cl ≤ toolsMatched req cl' := by
      unfold toolsMatched
      exact filter_length_mono _ _ _ (fun t _ hp => any_of_subset hsub _ hp)
    exact_mod_cast this

theorem softScore_mono (jobSoft : List String) {cs cs' : List String} (hsub : cs ⊆ cs') :
    softScore jobSoft cs ≤ softScore jobSoft cs' := by
  unfold softScore
  split_ifs with h
  · exact le_refl 5
  · have hlen : 0 < (jobSoft.length : ℚ) := by
      have hne : jobSoft ≠ [] := by
        intro hnil
        simp [hnil] at h
      exact_mod_cast List.length_pos.mpr hne
    apply mul_le_mul_of_nonneg_right _ (by norm_num)
    refine (div_le_div_right hlen).mpr ?_
    exact_mod_cast filter_length_mono _ _ _ (fun s _ hp => any_of_subset hsub _ hp)

theorem dictGet_cons (p : String × List String) (rest : List (String × List String))
    (k : String) :
    dictGet (p :: rest) k = if p.1 = k then p.2 else dictGet rest k := by
  unfold dictGet
  by_cases h : p.1 = k
  · rw [List.find?_cons_of_pos _ (by simpa using h), if_pos h]
  · rw [List.find?_cons_of_neg _ (by simpa using h), if_neg h]

theorem dictGet_dictAppend (d : List (String × List String)) (k x k' : String) :
    dictGet (dictAppend d k x) k' = if k' = k then dictGet d k ++ [x] else dictGet d k' := by
  induction d with
  | nil =>
      rw [dictAppend]
      by_cases h : k' = k
      · subst h
        simp [dictGet_cons, dictGet]
      · have h2 : ¬ k = k' := fun hk => h hk.symm
        simp [dictGet_cons, dictGet, h, h2]
  | cons e rest ih =>
      rw [dictAppend]
      by_cases he : e.1 = k
      · rw [if_pos he]
        by_cases hk : k' = k
        · subst hk
          simp [dictGet_cons, he]
        · have hk2 : ¬ e.1 = k' := fun h2 => hk (h2.symm.trans he)
          simp [dictGet_cons, hk, hk2]
      · rw [if_neg he]
        by_cases hk : k' = k
        · subst hk
          simp [dictGet_cons, he, ih]
        · simp [dictGet_cons, hk, ih]

theorem dictGet_subset_dictAppend (d : List (String × List String)) (k x k' : String) :
    dictGet d k' ⊆ dictGet (dictAppend d k x) k' := by
  intro b hb
  rw [dictGet_dictAppend]
  split_ifs with h
  · subst h
    exact List.mem_append_left _ hb
  · exact hb

theorem candidateSkillsList_subset_addSkill (sv : SkillsVal) (k x : String) :
    candidateSkillsList sv ⊆ candidateSkillsList (addSkill sv k x) := by
  cases sv with
  | list l =>
      intro a ha
      simp only [candidateSkillsList, addSkill]
      exact List.mem_append_left _ ha
  | dict d =>
      intro a ha
      simp only [candidateSkillsList, addSkill, List.mem_append] at ha ⊢
      rcases ha with ((h | h) | h) | h
      · exact Or.inl (Or.inl (Or.inl (dictGet_subset_dictAppend d k x _ h)))
      · exact Or.inl (Or.inl (Or.inr (dictGet_subset_dictAppend d k x _ h)))
      · exact Or.inl (Or.inr (dictGet_subset_dictAppend d k x _ h))
      · exact Or.inr (dictGet_subset_dictAppend d k x _ h)

theorem candidateSoft_subset_addSkill (sv : SkillsVal) (k x : String) :
    candidateSoft sv ⊆ candidateSoft (addSkill sv k x) := by
  cases sv with
  | list l =>
      intro a ha
      simpa [candidateSoft] using ha
  | dict d =>
      intro a ha
      simp only [candidateSoft, addSkill] at ha ⊢
      exact dictGet_subset_dictAppend d k x _ ha

/-- C2: appending one skill `x` that equals (case-insensitively, after
stripping) some required skill to any list of the candidate's skills
object — the job requirements and every other profile field held fixed —
never decreases the match percentage. -/
theorem matchPercentage_mono_addSkill (p : MatcherProfile) (job : JobRequirements)
    (k x : String) (hx : ∃ s ∈ job.required_skills, lowerStrip x = lowerStrip s) :
    (generateFallbackMatch p job).match_percentage ≤
      (generateFallbackMatch
        ⟨addSkill p.skills k x, p.experience_years, p.projects, p.experience⟩
        job).match_percentage := by
  have hsub : candLowerOf p.skills ⊆ candLowerOf (addSkill p.skills k x) := by
    intro a ha
    rw [candLowerOf] at ha ⊢
    obtain ⟨b, hb, rfl⟩ := List.mem_map.mp ha
    exact List.mem_map_of_mem _ (candidateSkillsList_subset_addSkill p.skills k x hb)
  have hsoft := candidateSoft_subset_addSkill p.skills k x
  show matchPercentageOf p job ≤ matchPercentageOf _ job
  unfold matchPercentageOf
  apply max_le_max le_rfl
  apply min_le_min le_rfl
  apply pyInt_mono
  unfold totalScoreOf classifiedOf
  refine add_le_add (add_le_add (add_le_add (add_le_add ?_ ?_) ?_) ?_) ?_
  · exact coreSkillsScore_mono job.required_skills
      (classify_weight_mono _ _ job.required_skills hsub)
  · exact le_refl _
  · exact toolsScore_mono job.required_skills hsub
  · exact le_refl _
  · exact softScore_mono job.soft_skills hsoft

theorem matchPercentage_mono_addSkill_witness :
    (∃ s ∈ reactJob.required_skills, lowerStrip "React" = lowerStrip s) ∧
      (generateFallbackMatch specKeysProfile reactJob).match_percentage ≤
        (generateFallbackMatch
          ⟨addSkill specKeysProfile.skills "technical_skills" "React",
            specKeysProfile.experience_years, specKeysProfile.projects,
            specKeysProfile.experience⟩
          reactJob).match_percentage :=
  ⟨⟨"react", by decide, by decide⟩,
    matchPercentage_mono_addSkill specKeysProfile reactJob "technical_skills" "React"
      ⟨"react", by decide, by decide⟩⟩

end SkillNav
